import Mathlib

/-!
Verification of the CoreStore configuration core: the scope/Perm bit set
(`store/scope/perm.go`), the configuration path type (`Route`, `Path`, `FQ`,
`Level`, `SplitFQ`, `IsValid`), the publish/subscribe change bus
(`config/service_pubsub.go`) and the SQL-table storage backend
(`DBStorage.Value`).

Strings are modelled at the character level (`List Char`); machine integers
(`int64`, `uint32`) are modelled as `Int`/`Nat` with explicit bounds or
`% 2^32` where the code can overflow.
-/

namespace Scope

/-- Modelled from the spec: the `scope.Type` enumeration is not under `src/`.
The spec lists the kinds Default, Website, Group, Store; the numbering used
here (with `Absent = 0` in front) is pinned by the test `TestPermTop` in
`src/unnamed/part_000`, which requires `Perm(44).Top() = Website`, i.e.
`Website = 2` and `Store = 4`. -/
def Absent : Nat := 0

/-- Default scope kind (see the numbering note on `Scope.Absent`). -/
def Default : Nat := 1

/-- Website scope kind. -/
def Website : Nat := 2

/-- Group scope kind. -/
def Group : Nat := 3

/-- Store scope kind. -/
def Store : Nat := 4

/-- `maxType`: one past the highest scope kind. -/
def maxType : Nat := Store + 1

/-- Modelled from the spec: `scope.Type.String()` is not under `src/`; the
names are the ones appearing in the Perm JSON form of the spec
(`"Default"`, `"Website"`, `"Store"`) plus `Absent`/`Group`. -/
def typeName (i : Nat) : List Char :=
  if i = Absent then String.toList "Absent"
  else if i = Default then String.toList "Default"
  else if i = Website then String.toList "Website"
  else if i = Group then String.toList "Group"
  else if i = Store then String.toList "Store"
  else []

/-- `Perm` is a bit set over scope kinds (`uint16` in the source; only bits
below `maxType` are ever produced by `Set`). -/
abbrev Perm := Nat

/-- `Perm.Set`: `bits |= 1 << i` for each argument. -/
def permSet (bits : Perm) (scopes : List Nat) : Perm :=
  scopes.foldl (fun b i => b ||| (1 <<< i)) bits

/-- `Perm.All()`: sets the Default, Website and Store bits. -/
def permAll (bits : Perm) : Perm :=
  permSet bits [Default, Website, Store]

/-- `Perm.Has`: `(bits & (1 << s)) != 0`. -/
def permHas (bits : Perm) (s : Nat) : Bool :=
  bits &&& (1 <<< s) != 0

/-- `Perm.Top()`: highest stored scope within a Perm. -/
def permTop (bits : Perm) : Nat :=
  if permHas bits Store then Store
  else if permHas bits Website then Website
  else Default

/-- `Perm.Human()`: the names of the set bits below `maxType`, in index
order (the source loops `i` from 0 to `maxType`, appending
`Type(i).String()` whenever bit `i` is set). -/
def permHuman (bits : Perm) : List (List Char) :=
  ((List.range maxType).filter (fun i => permHas bits i)).map typeName

/-- `Perm.String()`: writes each set bit's name followed by `','` into a
buffer, then truncates the buffer to `buf.Len() - 1`.  When no name was
written, `Truncate(-1)` panics inside `bytes.Buffer`; the panic is modelled
as `none`. -/
def permStringRun (bits : Perm) : Option (List Char) :=
  let buf := ((permHuman bits).map (fun n => n ++ [','])).flatten
  if buf.isEmpty then none else some buf.dropLast

/-- `Perm.MarshalJSON()`: `"null"` for the zero Perm, otherwise `["` then
the human names joined by `","` then `"]`. -/
def permMarshalJSON (bits : Perm) : List Char :=
  if bits = 0 then String.toList "null"
  else
    String.toList "[\"" ++
      ((permHuman bits).intersperse (String.toList "\",\"")).flatten ++
      String.toList "\"]"

end Scope

namespace Cfgpath

/-- A `Route` is the raw byte content of a configuration path, modelled at
the character level. -/
abbrev Route := List Char

/-- `Levels`: how many parts are at least in a path (`a/b/c` is 3). -/
def Levels : Nat := 3

/-- The path separator rune `'/'`. -/
def sep : Char := '/'

/-- Errors of the path package (`ErrRouteEmpty`, `ErrRouteInvalidBytes`,
`ErrIncorrectPath`, the per-character `fmt.Errorf`, and the errors of
`SplitFQ`: the `Incorrect fully qualified path` error, `ErrUnsupportedScope`
and a failed `strconv.ParseInt`). -/
inductive PathErr where
  | routeEmpty
  | routeInvalidBytes
  | incorrectPath
  | badChar (c : Char)
  | incorrectFQ
  | unsupportedScope
  | parseIntErr
  deriving DecidableEq, Repr

/-- Modelled from the spec: `Route.Valid()` (UTF-8 well-formedness of the
raw bytes) is not under `src/`; in a character-level model every route is
well-formed UTF-8, so the check always succeeds. -/
def routeValid (_ : Route) : Bool := true

/-- The character switch of `Path.IsValid`: digits, lower case, upper case,
underscore, or the separator. -/
def allowedChar (c : Char) : Bool :=
  (('0' ≤ c) && (c ≤ '9')) || (('a' ≤ c) && (c ≤ 'z')) ||
    (('A' ≤ c) && (c ≤ 'Z')) || (c == '_') || (c == sep)

/-- The scanning loop of `Path.IsValid`: walks the route, rejects non-ASCII
characters (`utf8.RuneSelf = 0x80`) and characters outside the switch, and
accumulates the separator count and processed length. -/
def scanRoute : Route → Nat → Nat → Except PathErr (Nat × Nat)
  | [], seps, len => .ok (seps, len)
  | c :: cs, seps, len =>
    if 128 ≤ c.toNat then .error (.badChar c)
    else if !allowedChar c then .error (.badChar c)
    else if c = sep then scanRoute cs (seps + 1) (len + 1)
    else scanRoute cs seps (len + 1)

/-- `Path.IsValid` (it inspects only the route): empty check, `Route.Valid`
check, character scan, then `sepCount != Levels-1 || length < 8` gives
`ErrIncorrectPath`. -/
def isValid (r : Route) : Except PathErr Unit :=
  if r.isEmpty then .error .routeEmpty
  else if !routeValid r then .error .routeInvalidBytes
  else
    match scanRoute r 0 0 with
    | .error e => .error e
    | .ok (seps, len) =>
      if seps ≠ Levels - 1 ∨ len < 8 then .error .incorrectPath else .ok ()

/-- `cfgpath.Path`: a route bound to a scope kind and a scope ID. -/
structure Path where
  route : Route
  scope : Nat
  id : Int
  deriving DecidableEq, Repr

instance : Inhabited Path := ⟨⟨[], Scope.Default, 0⟩⟩

/-- `Path.IsValid` on a path delegates to the route check. -/
def pathIsValid (p : Path) : Except PathErr Unit := isValid p.route

/-- Modelled from the spec: `scope.FromScope(...).String()` is not under
`src/`; the spec gives the textual prefixes `default`, `websites`, `stores`,
with Group folding to Default. -/
def fromScope (s : Nat) : List Char :=
  if s = Scope.Website then String.toList "websites"
  else if s = Scope.Store then String.toList "stores"
  else String.toList "default"

/-- Decimal digits of a natural number, most significant first, as written
by `strconv.AppendInt` (digit-extraction loop; the first argument is fuel
making the recursion structural, `n + 1` always suffices). -/
def natToCharsCore : Nat → Nat → List Char → List Char
  | 0, _, acc => acc
  | fuel + 1, n, acc =>
    if n < 10 then Char.ofNat (48 + n) :: acc
    else natToCharsCore fuel (n / 10) (Char.ofNat (48 + n % 10) :: acc)

/-- Decimal digits of a natural number, most significant first. -/
def natToChars (n : Nat) : List Char := natToCharsCore (n + 1) n []

/-- `strconv.AppendInt(_, n, 10)` for an `int64` value. -/
def intToChars (i : Int) : List Char :=
  if i < 0 then '-' :: natToChars i.natAbs else natToChars i.toNat

/-- `Path.FQ()`: validates, canonicalises a positive Default-scope ID to 0,
then writes `<scopeStr>/<id>/<route>`. -/
def fq (p : Path) : Except PathErr Route :=
  match pathIsValid p with
  | .error e => .error e
  | .ok _ =>
    let pid : Int := if p.scope = Scope.Default ∧ p.id > 0 then 0 else p.id
    .ok (fromScope p.scope ++ [sep] ++ intToChars pid ++ [sep] ++ p.route)

/-- The scanning loop of `Path.Level` for `level ≥ 1`: the prefix of the
route strictly before its `lvl`-th separator, or the whole route when it has
fewer separators. -/
def takeSegs : Nat → Route → Route
  | _, [] => []
  | lvl, c :: cs =>
    if c = sep then (if lvl = 1 then [] else c :: takeSegs (lvl - 1) cs)
    else c :: takeSegs lvl cs

/-- `Path.Level(level)`: validates, then whole route for `level < 0` or
`level ≥ len(route)`, empty route for `level = 0`, otherwise the first
`level` segments. -/
def level (p : Path) (lvl : Int) : Except PathErr Route :=
  match pathIsValid p with
  | .error e => .error e
  | .ok _ =>
    if lvl < 0 ∨ lvl ≥ (p.route.length : Int) then .ok p.route
    else if lvl = 0 then .ok []
    else .ok (takeSegs lvl.toNat p.route)

/-- `bytes.Count(r, Separator)`. -/
def countSep (r : Route) : Nat := r.count sep

/-- `bytes.IndexRune(r, '/')` as an option (the source's `-1` is the `none`
case). -/
def indexOfSep : Route → Option Nat
  | [] => none
  | c :: cs =>
    if c = sep then some 0 else (indexOfSep cs).map (· + 1)

/-- `isFQ`: at least `Levels+1` separators. -/
def isFQ (r : Route) : Bool := Levels + 1 ≤ countSep r

/-- Modelled from the spec: `scope.ValidBytes` is not under `src/`; the
valid textual scope prefixes are `default`, `websites` and `stores`. -/
def validBytes (b : List Char) : Bool :=
  b = String.toList "default" || b = String.toList "websites" ||
    b = String.toList "stores"

/-- Modelled from the spec: `scope.FromBytes` is not under `src/`; maps the
textual prefix to the scope kind, anything unknown to Default. -/
def fromBytes (b : List Char) : Nat :=
  if b = String.toList "websites" then Scope.Website
  else if b = String.toList "stores" then Scope.Store
  else Scope.Default

/-- `'0' ≤ c ≤ '9'`. -/
def isDigit (c : Char) : Bool := ('0' ≤ c) && (c ≤ '9')

/-- Value of a digit string, most significant first. -/
def natVal (cs : List Char) : Nat :=
  cs.foldl (fun a c => a * 10 + (c.toNat - 48)) 0

/-- `strconv.ParseInt(s, 10, 64)`: optional sign, non-empty digit string,
64-bit range check; returns `(0, err)` on failure as the Go function does. -/
def parseIntGo (cs : List Char) : Int × Option PathErr :=
  match cs with
  | [] => (0, some .parseIntErr)
  | c :: rest =>
    if c = '-' then
      if !rest.isEmpty ∧ rest.all isDigit ∧ (natVal rest : Int) ≤ 2 ^ 63 then
        (-(natVal rest : Int), none)
      else (0, some .parseIntErr)
    else if c = '+' then
      if !rest.isEmpty ∧ rest.all isDigit ∧ (natVal rest : Int) < 2 ^ 63 then
        ((natVal rest : Int), none)
      else (0, some .parseIntErr)
    else
      if (c :: rest).all isDigit ∧ (natVal (c :: rest) : Int) < 2 ^ 63 then
        ((natVal (c :: rest) : Int), none)
      else (0, some .parseIntErr)

/-- `SplitFQ`: checks `isFQ` and `Route.Valid`, splits off the scope string
at the first separator, validates it, splits off the scope ID at the next
separator and parses it, and returns the remainder as the route.  Mirrors
the Go signature `(Path, error)` as a pair; on a `ParseInt` failure the
partially filled path is returned together with the error. -/
def splitFQ (fqPath : Route) : Path × Option PathErr :=
  if !isFQ fqPath || !routeValid fqPath then (default, some .incorrectFQ)
  else
    -- isFQ guarantees at least four separators, so both lookups succeed
    let fi := (indexOfSep fqPath).getD 0
    let scopeBytes := fqPath.take fi
    if !validBytes scopeBytes then (default, some .unsupportedScope)
    else
      let rest := fqPath.drop (fi + 1)
      let fi2 := (indexOfSep rest).getD 0
      let (scopeID, perr) := parseIntGo (rest.take fi2)
      (⟨rest.drop (fi2 + 1), fromBytes scopeBytes, scopeID⟩, perr)

/-- Spec-side definition, for the round-trip claim: canonicalisation of the
Default-scope id to 0 (the spec's `(Default, *) → (Default, 0)`). -/
def canonicalize (p : Path) : Path :=
  if p.scope = Scope.Default then { p with id := 0 } else p

/-- Spec-side definition: the spec's "valid ScopeID" — one of the three
addressable kinds `default`, `websites`, `stores` with a non-negative
`int64` id. -/
def scopeIDValid (s : Nat) (id : Int) : Prop :=
  (s = Scope.Default ∨ s = Scope.Website ∨ s = Scope.Store) ∧
    0 ≤ id ∧ id < 2 ^ 63

/-- Spec-side definition, for the `Level` claim: the segments of a route
(split at every separator). -/
def segs : Route → List Route
  | [] => [[]]
  | c :: cs =>
    if c = sep then [] :: segs cs
    else
      match segs cs with
      | s :: rest => (c :: s) :: rest
      | [] => [[c]]

end Cfgpath

namespace PubSub

open Cfgpath

/-- Modelled from the spec: the 32-bit FNV-1a hash used for topic keys
(`Route.Hash32` / `Path.Hash` are not under `src/`; §4.1 "FNV-1a over the
first level segments", 32-bit). -/
def fnv1a32 (cs : List Char) : Nat :=
  cs.foldl (fun h c => ((h ^^^ c.toNat) * 16777619) % 2 ^ 32) 2166136261

/-- Modelled from the spec: `Path.Hash32()` — the hash of the whole route,
used by `Subscribe` as the topic key. -/
def hash32 (p : Path) : Nat := fnv1a32 p.route

/-- Modelled from the spec: `Path.Hash(level)` — the FNV-1a hash of
`Level(level)` of the route.  `readMapAndSend` keeps the `uint32` zero value
of `h` when `Hash` fails, so the error case yields 0 here. -/
def pathHash (p : Path) (lvl : Int) : Nat :=
  match level p lvl with
  | .ok r => fnv1a32 r
  | .error _ => 0

/-- Outcome of one `MessageConfig` call: normal return, a non-nil error, or
a panic. -/
inductive RecvOutcome where
  | ok
  | err
  | panics
  deriving DecidableEq, Repr

/-- A subscriber (`MessageReceiver`): its reaction to each delivered path. -/
structure Receiver where
  behave : Path → RecvOutcome

/-- A topic bucket: subscriber id → receiver, in insertion order. -/
abbrev Bucket := List (Nat × Receiver)

/-- `pubSub` state: the topic map, the id counter, the `closed` flag, and
whether `closeErr` has been closed (the hazard of the deferred
`close(s.closeErr)`).  The delivery goroutine and the unbuffered `pubPath`
channel are modelled synchronously: `sendMsg` both enqueues and lets the
loop process the one in-flight event. -/
structure State where
  subMap : List (Nat × Bucket)
  subAutoInc : Nat
  closed : Bool
  closeErrClosed : Bool

/-- `newPubSub`. -/
def newPubSub : State :=
  { subMap := [], subAutoInc := 0, closed := false, closeErrClosed := false }

/-- Association-list lookup standing in for the Go map read `subMap[h]`. -/
def lookupBucket (m : List (Nat × Bucket)) (h : Nat) : Option Bucket :=
  match m.find? (fun e => e.1 = h) with
  | some e => some e.2
  | none => none

/-- Map write `subMap[h][id] = mr` (creating the bucket when absent). -/
def insertSub (m : List (Nat × Bucket)) (h : Nat) (id : Nat) (mr : Receiver) :
    List (Nat × Bucket) :=
  match m with
  | [] => [(h, [(id, mr)])]
  | (h0, b0) :: rest =>
    if h0 = h then (h0, b0 ++ [(id, mr)]) :: rest
    else (h0, b0) :: insertSub rest h id mr

/-- `Subscribe`: rejects an empty route, increments the id counter, and
stores the receiver under `Hash32` of the path. -/
def subscribe (s : State) (p : Path) (mr : Receiver) : State × Except Unit Nat :=
  if p.route.isEmpty then (s, .error ())
  else
    let nid := s.subAutoInc + 1
    ({ s with
        subAutoInc := nid
        subMap := insertSub s.subMap (hash32 p) nid mr },
      .ok nid)

/-- Dropping a subscriber id from one bucket. -/
def removeFromBucket (b : Bucket) (id : Nat) : Bucket :=
  b.filter (fun e => e.1 ≠ id)

/-- `Unsubscribe`: removes the id from the first bucket containing it and
drops the bucket when it becomes empty; always reports success. -/
def unsubscribe (s : State) (id : Nat) : State :=
  { s with subMap := unsubMap s.subMap id }
where
  unsubMap : List (Nat × Bucket) → Nat → List (Nat × Bucket)
    | [], _ => []
    | (h0, b0) :: rest, i =>
      if (b0.find? (fun e => e.1 = i)).isSome then
        let b1 := removeFromBucket b0 i
        if b1.isEmpty then rest else (h0, b1) :: rest
      else (h0, b0) :: unsubMap rest i

/-- `sendMsgRecoverable`: a panic is recovered and turned into the returned
error, so the call fails exactly when the receiver did not return
normally. -/
def sendMsgRecoverable (o : RecvOutcome) : Option Unit :=
  match o with
  | .ok => none
  | .err => some ()
  | .panics => some ()

/-- `sendMsgs`: calls every receiver of a bucket in order; the log of calls
and the ids marked for eviction (those whose call failed). -/
def sendMsgs (subs : Bucket) (p : Path) : List (Nat × Path) × List Nat :=
  match subs with
  | [] => ([], [])
  | (id, mr) :: rest =>
    let (cs, ev) := sendMsgs rest p
    match sendMsgRecoverable (mr.behave p) with
    | none => ((id, p) :: cs, ev)
    | some _ => ((id, p) :: cs, id :: ev)

/-- `readMapAndSend`: computes `p.Hash(level)` twice — the source intends
one variant with and one without the scope prefix, but issues the identical
call both times — and sends to the bucket found under each of the two
(equal) hashes. -/
def readMapAndSend (s : State) (p : Path) (lvl : Int) :
    List (Nat × Path) × List Nat :=
  let h1 := pathHash p lvl
  let (c1, e1) :=
    match lookupBucket s.subMap h1 with
    | some subs => sendMsgs subs p
    | none => ([], [])
  let h2 := pathHash p lvl
  let (c2, e2) :=
    match lookupBucket s.subMap h2 with
    | some subs => sendMsgs subs p
    | none => ([], [])
  (c1 ++ c2, e1 ++ e2)

/-- The body of the `publish` loop for one received path: skip when the
topic map is empty, otherwise fan out at levels 1, 2 and -1 and afterwards
unsubscribe every id marked for eviction. -/
def publishOne (s : State) (p : Path) : State × List (Nat × Path) :=
  if s.subMap.isEmpty then (s, [])
  else
    let (c1, e1) := readMapAndSend s p 1
    let (c2, e2) := readMapAndSend s p 2
    let (c3, e3) := readMapAndSend s p (-1)
    ((e1 ++ e2 ++ e3).foldl (fun st i => unsubscribe st i) s, c1 ++ c2 ++ c3)

/-- `sendMsg` composed with the delivery loop's handling of that one path:
when closed nothing is enqueued and nothing is delivered; otherwise the
event is delivered synchronously (the source channel is unbuffered, so the
send completes only by the loop receiving the path). -/
def sendMsg (s : State) (p : Path) : State × List (Nat × Path) :=
  if s.closed then (s, []) else publishOne s p

/-- Result of `Close`: nil, the `AlreadyClosed` error, or a panic (a second
`close(s.closeErr)` would panic, which the early return prevents). -/
inductive CloseResult where
  | ok
  | alreadyClosed
  | panicked
  deriving DecidableEq, Repr

/-- `Close`: returns `AlreadyClosed` before touching any channel when
already closed; otherwise sets `closed`, stops the loop, closes the
channels and receives the loop's nil acknowledgement. -/
def close (s : State) : State × CloseResult :=
  if s.closed then (s, .alreadyClosed)
  else if s.closeErrClosed then
    ({ s with closed := true, closeErrClosed := true }, .panicked)
  else ({ s with closed := true, closeErrClosed := true }, .ok)

/-- The public operations, for reachability of states. -/
inductive Op where
  | subscribeOp (p : Path) (mr : Receiver)
  | unsubscribeOp (id : Nat)
  | sendOp (p : Path)
  | closeOp

/-- Applying one operation (discarding its output). -/
def applyOp (s : State) : Op → State
  | .subscribeOp p mr => (subscribe s p mr).1
  | .unsubscribeOp id => unsubscribe s id
  | .sendOp p => (sendMsg s p).1
  | .closeOp => (close s).1

/-- The state reached from `newPubSub` by a sequence of operations. -/
def runOps (ops : List Op) : State := ops.foldl applyOp newPubSub

/-- All subscriber ids present in a topic map. -/
def allIds (m : List (Nat × Bucket)) : List Nat :=
  (m.map (fun e => e.2.map Prod.fst)).flatten

end PubSub

namespace Ccd

open Cfgpath

/-- The error kind taxonomy of the `errors` package (`Kind.Match`); only the
kinds the claims need. -/
inductive ErrKind where
  | notFound
  | alreadyClosed
  deriving DecidableEq, Repr

/-- An error together with its matchable kind.  `errors.Wrapf` adds message
and stack but no kind, so wrapping a kindless error (such as
`sql.ErrNoRows`) yields an error whose kind is `none` and which matches no
kind. -/
structure GoError where
  kind : Option ErrKind
  deriving DecidableEq, Repr

/-- `errKeyNotFound = errors.NewNotFoundf(...)`. -/
def errKeyNotFound : GoError := ⟨some .notFound⟩

/-- A `scope.Scope.StrType()` string used as the `scope` column value. -/
def strType (s : Nat) : List Char := fromScope s

/-- The `core_config_data` table contents: for each `(scope, scope_id,
path)` key either no row, or a row whose `value` column may be SQL NULL
(`none`). -/
abbrev DB := List ((List Char × Int × Route) × Option (List Char))

/-- `stmt.QueryRow(scope, scope_id, path)` row lookup. -/
def queryRow (db : DB) (k : List Char × Int × Route) :
    Option (Option (List Char)) :=
  match db.find? (fun e => e.1 = k) with
  | some e => some e.2
  | none => none

/-- `DBStorage.Value`: prepares the read statement, computes
`key.Level(-1)`, queries the row and scans into a `null.String`.  A missing
row makes `Scan` return `sql.ErrNoRows`, which is wrapped with
`errors.Wrapf` (no kind); a row whose value is NULL yields
`errKeyNotFound`. -/
def dbValue (db : DB) (key : Path) : Except GoError (List Char) :=
  match level key (-1) with
  | .error _ => .error ⟨none⟩
  | .ok pl =>
    match queryRow db (strType key.scope, key.id, pl) with
    | none => .error ⟨none⟩
    | some none => .error errKeyNotFound
    | some (some v) => .ok v

end Ccd

section Fixtures

open Cfgpath PubSub

/-- A receiver that always returns nil. -/
def okReceiver : Receiver := ⟨fun _ => .ok⟩

/-- A receiver that always panics. -/
def panicReceiver : Receiver := ⟨fun _ => .panics⟩

/-- Subscription path for the one-segment topic `system`. -/
def subSystem : Path := ⟨String.toList "system", Scope.Default, 0⟩

/-- Subscription path for the one-segment topic `other`. -/
def subOther : Path := ⟨String.toList "other", Scope.Default, 0⟩

/-- A published path whose route has the subscribed topic `system` as a
prefix. -/
def pubHost : Path := ⟨String.toList "system/smtp/host", Scope.Store, 3⟩

/-- State with one well-behaved subscriber on `system`. -/
def stateOneSub : State := (subscribe newPubSub subSystem okReceiver).1

/-- State with one well-behaved subscriber on `other`. -/
def stateOtherSub : State := (subscribe newPubSub subOther okReceiver).1

/-- State with a panicking subscriber (id 1) and a well-behaved subscriber
(id 2), both on `system`. -/
def stateMixed : State :=
  (subscribe (subscribe newPubSub subSystem panicReceiver).1 subSystem
    okReceiver).1

end Fixtures

open Cfgpath PubSub Scope Ccd

/-- C1.  The claim says the delivery loop computes, per level, both hash
variants (with and without the scope prefix) and that a subscriber whose
route is a prefix of the published route receives exactly one message.
`readMapAndSend` issues the identical `p.Hash(level)` call twice, so the
matching bucket is looked up and served twice: the subscriber on `system`
receives the event for `system/smtp/host` twice, while a subscriber on a
non-prefix route receives nothing. -/
theorem pubsub_prefix_subscriber_receives_twice :
    (sendMsg stateOneSub pubHost).2 = [(1, pubHost), (1, pubHost)] ∧
    (sendMsg stateOtherSub pubHost).2 = [] := by
  constructor <;> rfl

/-- C3.  `Path.IsValid` accepts `a/bcd/efg` (first segment shorter than 2
characters) and `aaa/bbbb/` (trailing separator, empty last segment): it
checks only the separator count and the total length, not the per-segment
minimum its own documentation promises. -/
theorem isValid_accepts_short_segment_and_trailing_sep :
    isValid (String.toList "a/bcd/efg") = .ok () ∧
    isValid (String.toList "aaa/bbbb/") = .ok () := by
  constructor <;> rfl

/-- C4.  When the queried row does not exist, `DBStorage.Value` returns the
wrapped `sql.ErrNoRows`, which carries no error kind and so does not match
`NotFound`; `errKeyNotFound` is only returned for an existing row with a
NULL value. -/
theorem dbValue_missing_row_error_without_notfound_kind :
    ∃ e, dbValue [] ⟨String.toList "aa/bb/cc", Scope.Store, 1⟩ = .error e ∧
      e.kind ≠ some ErrKind.notFound := by
  exact ⟨⟨none⟩, rfl, by decide⟩

/-- C6.  `FQ` canonicalises the Default-scope id only when it is positive
(`p.ID > 0`): a negative id survives into the fully-qualified string, so the
claim that every id is canonicalised to 0 fails at id `-7`. -/
theorem fq_default_negative_id_not_canonicalised :
    fq ⟨String.toList "aa/bb/cc", Scope.Default, -7⟩ =
      .ok (String.toList "default/-7/aa/bb/cc") ∧
    fq (canonicalize ⟨String.toList "aa/bb/cc", Scope.Default, -7⟩) =
      .ok (String.toList "default/0/aa/bb/cc") := by
  constructor <;> rfl

/-- C8.  `Perm.MarshalJSON` returns exactly `null` for the zero Perm and
exactly `["Default","Website","Store"]` for `Perm.All()`. -/
theorem perm_marshalJSON_null_and_all :
    permMarshalJSON 0 = String.toList "null" ∧
    permMarshalJSON (permAll 0) =
      String.toList "[\"Default\",\"Website\",\"Store\"]" := by
  constructor <;> rfl

theorem countSep_cons (c : Char) (cs : Route) :
    countSep (c :: cs) = (if c = sep then 1 else 0) + countSep cs := by
  simp [countSep, List.count_cons]
  split <;> simp_all [Nat.add_comm]

theorem takeSegs_isPrefix (lvl : Nat) (cs : Route) : takeSegs lvl cs <+: cs := by
  induction cs generalizing lvl with
  | nil => simp [takeSegs]
  | cons c cs ih =>
    simp only [takeSegs]
    by_cases hc : c = sep
    · by_cases hl : lvl = 1
      · simp [hc, hl]
      · obtain ⟨t, ht⟩ := ih (lvl - 1)
        rw [if_pos hc, if_neg hl]
        exact ⟨t, by rw [List.cons_append, ht]⟩
    · obtain ⟨t, ht⟩ := ih lvl
      rw [if_neg hc]
      exact ⟨t, by rw [List.cons_append, ht]⟩

theorem takeSegs_boundary (lvl : Nat) (cs : Route) :
    takeSegs lvl cs = cs ∨ cs.get? (takeSegs lvl cs).length = some sep := by
  induction cs generalizing lvl with
  | nil => left; simp [takeSegs]
  | cons c cs ih =>
    simp only [takeSegs]
    by_cases hc : c = sep
    · by_cases hl : lvl = 1
      · right; simp [hc, hl]
      · rcases ih (lvl - 1) with h | h
        · left; simp [hc, hl, h]
        · right; simpa [hc, hl] using h
    · rcases ih lvl with h | h
      · left; simp [hc, h]
      · right; simpa [hc] using h

theorem segs_ne_nil (cs : Route) : segs cs ≠ [] := by
  cases cs with
  | nil => simp [segs]
  | cons c cs =>
    simp only [segs]
    by_cases hc : c = sep
    · simp [hc]
    · simp only [hc, if_neg hc]
      cases h : segs cs with
      | nil => simp
      | cons s rest => simp

theorem segs_takeSegs (lvl : Nat) (cs : Route) (h : 1 ≤ lvl) :
    segs (takeSegs lvl cs) = (segs cs).take lvl := by
  obtain ⟨k, rfl⟩ : ∃ k, lvl = k + 1 := ⟨lvl - 1, by omega⟩
  clear h
  induction cs generalizing k with
  | nil => simp [takeSegs, segs]
  | cons c cs ih =>
    by_cases hc : c = sep
    · subst hc
      cases k with
      | zero => simp [takeSegs, segs]
      | succ k2 =>
        have hrec := ih k2
        have h1 : takeSegs (k2 + 1 + 1) (sep :: cs) = sep :: takeSegs (k2 + 1) cs := by
          rw [takeSegs, if_pos rfl, if_neg (by omega)]
          simp
        rw [h1]
        have h2 : segs (sep :: takeSegs (k2 + 1) cs) =
            [] :: segs (takeSegs (k2 + 1) cs) := by
          rw [segs, if_pos rfl]
        rw [h2, hrec]
        rw [show segs (sep :: cs) = [] :: segs cs from by rw [segs, if_pos rfl]]
        rw [List.take_succ_cons]
    · have hrec := ih k
      cases hs2 : segs cs with
      | nil => exact absurd hs2 (segs_ne_nil _)
      | cons s2 rest2 =>
        have h1 : takeSegs (k + 1) (c :: cs) = c :: takeSegs (k + 1) cs := by
          rw [takeSegs, if_neg hc]
        have hts : segs (takeSegs (k + 1) cs) = s2 :: rest2.take k := by
          rw [hrec, hs2, List.take_succ_cons]
        have h2 : segs (c :: takeSegs (k + 1) cs) = (c :: s2) :: rest2.take k := by
          rw [segs]; rw [if_neg hc, hts]
        have h3 : segs (c :: cs) = (c :: s2) :: rest2 := by
          rw [segs]; rw [if_neg hc, hs2]
        rw [h1, h2, h3, List.take_succ_cons]

theorem segs_length (cs : Route) : (segs cs).length = countSep cs + 1 := by
  induction cs with
  | nil => simp [segs, countSep]
  | cons c cs ih =>
    by_cases hc : c = sep
    · subst hc
      rw [show segs (sep :: cs) = [] :: segs cs from by rw [segs, if_pos rfl]]
      simp only [List.length_cons, ih, countSep, List.count_cons]
      simp
    · cases hs : segs cs with
      | nil => exact absurd hs (segs_ne_nil _)
      | cons s rest =>
        rw [show segs (c :: cs) = (c :: s) :: rest from by
          rw [segs]; rw [if_neg hc, hs]]
        rw [hs] at ih
        simp only [List.length_cons] at ih ⊢
        have : countSep (c :: cs) = countSep cs := by
          simp [countSep, List.count_cons, hc]
        omega

theorem scanRoute_ok (cs : Route) (a b x y : Nat)
    (h : scanRoute cs a b = .ok (x, y)) :
    x = a + countSep cs ∧ y = b + cs.length := by
  induction cs generalizing a b with
  | nil =>
    simp only [scanRoute, Except.ok.injEq, Prod.mk.injEq] at h
    simp [countSep, h.1.symm, h.2.symm]
  | cons c cs ih =>
    rw [scanRoute] at h
    by_cases h1 : 128 ≤ c.toNat
    · rw [if_pos h1] at h; exact absurd h (by simp)
    · rw [if_neg h1] at h
      by_cases h2 : !allowedChar c
      · rw [if_pos h2] at h; exact absurd h (by simp)
      · rw [if_neg h2] at h
        by_cases h3 : c = sep
        · rw [if_pos h3] at h
          have := ih (a + 1) (b + 1) h
          have hcnt : countSep (c :: cs) = 1 + countSep cs := by
            simp [countSep, List.count_cons, h3, Nat.add_comm]
          simp only [hcnt, List.length_cons]
          omega
        · rw [if_neg h3] at h
          have := ih a (b + 1) h
          have hcnt : countSep (c :: cs) = countSep cs := by
            simp [countSep, List.count_cons, h3]
          simp only [hcnt, List.length_cons]
          omega

theorem isValid_facts (r : Route) (h : isValid r = .ok ()) :
    countSep r = Levels - 1 ∧ 8 ≤ r.length ∧ r ≠ [] := by
  have hne : r ≠ [] := by
    rintro rfl
    simp [isValid] at h
  have hemp : r.isEmpty = false := by simpa using hne
  rw [isValid, hemp] at h
  simp only [Bool.false_eq_true, if_false, routeValid, Bool.not_true] at h
  cases hscan : scanRoute r 0 0 with
  | error e => rw [hscan] at h; exact absurd h (by simp)
  | ok pr =>
    obtain ⟨seps, len⟩ := pr
    rw [hscan] at h
    simp only at h
    by_cases hcond : seps ≠ Levels - 1 ∨ len < 8
    · rw [if_pos hcond] at h; exact absurd h (by simp)
    · push_neg at hcond
      have := scanRoute_ok r 0 0 seps len hscan
      exact ⟨by omega, by omega, hne⟩

/-- C9.  For a valid path: `Level(n)` with `n < 0` returns the whole route;
`Level(0)` returns the empty route; and for `n ≥ 1` it returns the first `n`
segments of the route, a prefix of the route that ends immediately before a
separator or at the end of the route. -/
theorem level_first_segments (p : Path) (h : pathIsValid p = .ok ()) :
    (∀ n : Int, n < 0 → level p n = .ok p.route) ∧
    level p 0 = .ok [] ∧
    (∀ n : Int, 1 ≤ n → ∃ res, level p n = .ok res ∧
      segs res = (segs p.route).take n.toNat ∧
      res <+: p.route ∧
      (res = p.route ∨ p.route.get? res.length = some sep)) := by
  obtain ⟨hcnt, hlen, hnil⟩ := isValid_facts p.route h
  refine ⟨?_, ?_, ?_⟩
  · intro n hn
    simp only [level, h]
    rw [if_pos (Or.inl hn)]
  · simp only [level, h]
    rw [if_neg (by push_neg; constructor <;> omega)]
    simp
  · intro n hn
    by_cases hbig : n ≥ (p.route.length : Int)
    · refine ⟨p.route, ?_, ?_, List.prefix_refl _, Or.inl rfl⟩
      · simp only [level, h]
        rw [if_pos (Or.inr hbig)]
      · rw [List.take_of_length_le]
        rw [segs_length, hcnt]
        simp only [Levels]
        omega
    · have hne0 : ¬(n = 0) := by omega
      have hcond : ¬(n < 0 ∨ n ≥ (p.route.length : Int)) := by push_neg; omega
      refine ⟨takeSegs n.toNat p.route, ?_, ?_, takeSegs_isPrefix _ _,
        takeSegs_boundary _ _⟩
      · simp only [level, h]
        rw [if_neg hcond, if_neg hne0]
      · exact segs_takeSegs n.toNat p.route (by omega)

/-- Witness for `level_first_segments` at the valid path
`system/smtp/host` and level 2. -/
theorem level_first_segments_witness :
    ∃ res,
      level ⟨String.toList "system/smtp/host", Scope.Store, 3⟩ 2 = .ok res ∧
      segs res = (segs (String.toList "system/smtp/host")).take (2 : Int).toNat ∧
      res <+: String.toList "system/smtp/host" ∧
      (res = String.toList "system/smtp/host" ∨
        (String.toList "system/smtp/host").get? res.length = some sep) :=
  (level_first_segments ⟨String.toList "system/smtp/host", Scope.Store, 3⟩
    (by rfl)).2.2 2 (by norm_num)

theorem join_comma_dropLast (L : List (List Char)) (h : L ≠ []) :
    ((L.map (fun n => n ++ [','])).flatten).dropLast =
      (L.intersperse [',']).flatten := by
  induction L with
  | nil => exact absurd rfl h
  | cons x rest ih =>
    cases rest with
    | nil => simp
    | cons y rest2 =>
      have hne : ((((y :: rest2).map (fun n => n ++ [','])).flatten)) ≠ [] := by
        simp
      rw [List.map_cons, List.flatten_cons,
        List.dropLast_append_of_ne_nil _ hne, ih (by simp)]
      rw [show (x :: y :: rest2).intersperse [','] =
        x :: [','] :: (y :: rest2).intersperse [','] from rfl]
      simp [List.append_assoc]

/-- C10.  For every Perm with at least one scope bit set, `Perm.String()`
returns the names of the set scopes joined by `','` with no trailing
separator and does not panic; on the zero Perm the method truncates the
empty buffer to length -1, which panics (`none`). -/
theorem perm_string_nonzero_no_panic (bits : Nat)
    (h : ∃ i, i < Scope.maxType ∧ Scope.permHas bits i = true) :
    (∃ out, Scope.permStringRun bits = some out ∧
      out = ((Scope.permHuman bits).intersperse [',']).flatten) ∧
    Scope.permStringRun 0 = none := by
  refine ⟨?_, rfl⟩
  have hne : Scope.permHuman bits ≠ [] := by
    obtain ⟨i, hi, hb⟩ := h
    intro hemp
    rw [Scope.permHuman, List.map_eq_nil_iff, List.filter_eq_nil_iff] at hemp
    exact absurd hb (by simpa using hemp i (List.mem_range.2 hi))
  obtain ⟨x, rest, hx⟩ := List.exists_cons_of_ne_nil hne
  have hbuf : ((Scope.permHuman bits).map (fun n => n ++ [','])).flatten ≠ [] := by
    rw [hx]; simp
  refine ⟨((Scope.permHuman bits).map (fun n => n ++ [','])).flatten.dropLast,
    ?_, join_comma_dropLast _ hne⟩
  rw [Scope.permStringRun]
  simp only [List.isEmpty_iff]
  rw [if_neg hbuf]

/-- Witness for `perm_string_nonzero_no_panic` at `Perm = 22`
(Default, Website and Store bits set). -/
theorem perm_string_nonzero_no_panic_witness :
    (∃ out, Scope.permStringRun 22 = some out ∧
      out = ((Scope.permHuman 22).intersperse [',']).flatten) ∧
    Scope.permStringRun 0 = none :=
  perm_string_nonzero_no_panic 22 ⟨1, by decide, by decide⟩

/-- The flag invariant of every reachable pubSub state: `closeErr` is only
ever closed by a `Close` call that also set `closed`. -/
def flagInv (s : State) : Prop := s.closeErrClosed = true → s.closed = true

theorem foldl_unsubscribe_flags (l : List Nat) (s : State) :
    (l.foldl (fun st i => unsubscribe st i) s).closed = s.closed ∧
    (l.foldl (fun st i => unsubscribe st i) s).closeErrClosed =
      s.closeErrClosed := by
  induction l generalizing s with
  | nil => exact ⟨rfl, rfl⟩
  | cons i rest ih => exact ih (unsubscribe s i)

theorem applyOp_flagInv (s : State) (op : Op) (h : flagInv s) :
    flagInv (applyOp s op) := by
  cases op with
  | subscribeOp p mr =>
    simp only [applyOp, subscribe]
    split
    · exact h
    · exact h
  | unsubscribeOp id => exact h
  | sendOp p =>
    simp only [applyOp, sendMsg]
    split
    · exact h
    · simp only [publishOne]
      split
      · exact h
      · intro hcec
        obtain ⟨h1, h2⟩ := foldl_unsubscribe_flags _ s
        rw [h2] at hcec
        rw [h1]
        exact h hcec
  | closeOp =>
    simp only [applyOp, close]
    split
    · exact h
    · split
      · intro _; rfl
      · intro _; rfl

theorem runOps_flagInv (ops : List Op) : flagInv (runOps ops) := by
  rw [runOps]
  suffices hstep : ∀ s, flagInv s → flagInv (ops.foldl applyOp s) by
    refine hstep newPubSub ?_
    intro hx
    simp [newPubSub] at hx
  intro s hs
  induction ops generalizing s with
  | nil => exact hs
  | cons op rest ih => exact ih _ (applyOp_flagInv s op hs)

theorem close_fst_closed (s : State) : (close s).1.closed = true := by
  rw [close]
  split
  · rename_i hcl; simpa using hcl
  · split <;> rfl

/-- C7.  From every reachable pubSub state: `Close` never panics; on a
not-yet-closed state it returns nil and marks the state closed; a second
`Close` returns `AlreadyClosed`; and after `Close`, `sendMsg` neither
changes the state nor delivers anything (nothing is enqueued on the input
channel). -/
theorem close_lifecycle (ops : List Op) :
    ((close (runOps ops)).2 ≠ .panicked) ∧
    ((runOps ops).closed = false → (close (runOps ops)).2 = .ok ∧
      (close (runOps ops)).1.closed = true) ∧
    ((close ((close (runOps ops)).1)).2 = .alreadyClosed) ∧
    (∀ p, sendMsg ((close (runOps ops)).1) p = (((close (runOps ops)).1), [])) := by
  have hinv := runOps_flagInv ops
  refine ⟨?_, ?_, ?_, ?_⟩
  · by_cases hcl : (runOps ops).closed = true
    · rw [close, if_pos hcl]; simp
    · have hcec : (runOps ops).closeErrClosed = false := by
        by_cases hx : (runOps ops).closeErrClosed = true
        · exact absurd (hinv hx) hcl
        · simpa using hx
      rw [close, if_neg hcl, if_neg (by simp [hcec])]
      simp
  · intro hcl
    have hcec : (runOps ops).closeErrClosed = false := by
      by_cases hx : (runOps ops).closeErrClosed = true
      · exact absurd (hinv hx) (by simp [hcl])
      · simpa using hx
    rw [close, if_neg (by simp [hcl]), if_neg (by simp [hcec])]
    exact ⟨rfl, rfl⟩
  · rw [show (close ((close (runOps ops)).1)).2 = _ from rfl, close,
      if_pos (close_fst_closed (runOps ops))]
  · intro p
    rw [sendMsg, if_pos (close_fst_closed (runOps ops))]

/-- Witness for `close_lifecycle` on the freshly constructed pubSub. -/
theorem close_lifecycle_witness :
    (close (runOps [])).2 ≠ .panicked ∧
    ((close (runOps [])).2 = .ok ∧ (close (runOps [])).1.closed = true) ∧
    (close ((close (runOps [])).1)).2 = .alreadyClosed := by
  obtain ⟨h1, h2, h3, -⟩ := close_lifecycle []
  exact ⟨h1, h2 rfl, h3⟩

theorem allIds_cons (h : Nat) (b : Bucket) (rest : List (Nat × Bucket)) :
    allIds ((h, b) :: rest) = b.map Prod.fst ++ allIds rest := rfl

theorem sendMsgs_log (subs : Bucket) (p : Path) :
    (sendMsgs subs p).1 = subs.map (fun e => (e.1, p)) := by
  induction subs with
  | nil => rfl
  | cons e rest ih =>
    obtain ⟨id, mr⟩ := e
    simp only [sendMsgs, ih]
    cases mr.behave p <;> simp [sendMsgRecoverable]

theorem sendMsgs_evict (subs : Bucket) (p : Path) (id : Nat) (mr : Receiver)
    (hmem : (id, mr) ∈ subs) (hfail : mr.behave p ≠ .ok) :
    id ∈ (sendMsgs subs p).2 := by
  induction subs with
  | nil => simp at hmem
  | cons e rest ih =>
    obtain ⟨id0, mr0⟩ := e
    rcases List.mem_cons.1 hmem with he | he
    · injection he with h1 h2
      subst h1; subst h2
      simp only [sendMsgs]
      cases ho : mr.behave p
      · exact absurd ho hfail
      · simp [sendMsgRecoverable]
      · simp [sendMsgRecoverable]
    · simp only [sendMsgs]
      cases mr0.behave p <;>
        simp [sendMsgRecoverable, ih he]

theorem unsubMap_allIds_sublist (m : List (Nat × Bucket)) (i : Nat) :
    List.Sublist (allIds (unsubscribe.unsubMap m i)) (allIds m) := by
  induction m with
  | nil => simp [unsubscribe.unsubMap]
  | cons e rest ih =>
    obtain ⟨h0, b0⟩ := e
    simp only [unsubscribe.unsubMap]
    split
    · split
      · rw [allIds_cons]
        exact (List.sublist_append_right _ _)
      · rw [allIds_cons, allIds_cons]
        refine List.Sublist.append ?_ (List.Sublist.refl _)
        exact List.Sublist.map Prod.fst (List.filter_sublist b0)
    · rw [allIds_cons, allIds_cons]
      exact List.Sublist.append (List.Sublist.refl _) ih

theorem mem_map_fst_of_find (b : Bucket) (i : Nat)
    (hf : (b.find? (fun e => e.1 = i)).isSome = true) :
    i ∈ b.map Prod.fst := by
  obtain ⟨e, he⟩ := Option.isSome_iff_exists.1 hf
  have := List.find?_some he
  have hmem := List.mem_of_find?_eq_some he
  simp only [decide_eq_true_eq] at this
  exact List.mem_map.2 ⟨e, hmem, this⟩

theorem unsubMap_removes (m : List (Nat × Bucket)) (i : Nat)
    (hnd : (allIds m).Nodup) : i ∉ allIds (unsubscribe.unsubMap m i) := by
  induction m with
  | nil => simp [unsubscribe.unsubMap, allIds]
  | cons e rest ih =>
    obtain ⟨h0, b0⟩ := e
    rw [allIds_cons, List.nodup_append] at hnd
    obtain ⟨hnd0, hndr, hdisj⟩ := hnd
    simp only [unsubscribe.unsubMap]
    split
    · rename_i hf
      have hib0 : i ∈ b0.map Prod.fst := mem_map_fst_of_find b0 i hf
      have hir : i ∉ allIds rest := fun hx => hdisj hib0 hx
      split
      · exact hir
      · rw [allIds_cons]
        intro hx
        rcases List.mem_append.1 hx with hx | hx
        · obtain ⟨e2, he2, hfst⟩ := List.mem_map.1 hx
          have := List.of_mem_filter he2
          simp only [decide_eq_true_eq] at this
          exact this hfst
        · exact hir hx
    · rename_i hf
      rw [allIds_cons]
      intro hx
      rcases List.mem_append.1 hx with hx | hx
      · have : ∃ e2 ∈ b0, e2.1 = i := by
          obtain ⟨e2, he2, hfst⟩ := List.mem_map.1 hx
          exact ⟨e2, he2, hfst⟩
        obtain ⟨e2, he2, hfst⟩ := this
        have := List.find?_eq_none.1 (Option.not_isSome_iff_eq_none.1 hf) e2 he2
        simp [hfst] at this
      · exact ih hndr hx

theorem foldl_unsubscribe_ids_sublist (l : List Nat) (s : State) :
    List.Sublist (allIds ((l.foldl (fun st j => unsubscribe st j) s).subMap))
      (allIds s.subMap) := by
  induction l generalizing s with
  | nil => exact List.Sublist.refl _
  | cons j rest ih =>
    exact (ih (unsubscribe s j)).trans (unsubMap_allIds_sublist s.subMap j)

theorem foldl_unsubscribe_removes (l : List Nat) (s : State) (i : Nat)
    (hnd : (allIds s.subMap).Nodup) (hi : i ∈ l) :
    i ∉ allIds ((l.foldl (fun st j => unsubscribe st j) s).subMap) := by
  induction l generalizing s with
  | nil => simp at hi
  | cons j rest ih =>
    rcases List.mem_cons.1 hi with rfl | hi2
    · intro hx
      exact unsubMap_removes s.subMap i hnd
        ((foldl_unsubscribe_ids_sublist rest (unsubscribe s i)).subset hx)
    · exact ih (unsubscribe s j)
        ((unsubMap_allIds_sublist s.subMap j).nodup hnd) hi2

theorem lookupBucket_ne_nil (m : List (Nat × Bucket)) (h : Nat) (b : Bucket)
    (hlk : lookupBucket m h = some b) : m.isEmpty = false := by
  cases m with
  | nil => simp [lookupBucket] at hlk
  | cons e rest => rfl

theorem readMapAndSend_of_lookup (s : State) (p : Path) (lvl : Int)
    (b : Bucket) (hlk : lookupBucket s.subMap (pathHash p lvl) = some b) :
    readMapAndSend s p lvl = ((sendMsgs b p).1 ++ (sendMsgs b p).1,
      (sendMsgs b p).2 ++ (sendMsgs b p).2) := by
  rw [readMapAndSend]
  simp only [hlk]

theorem publishOne_eq (s : State) (p : Path) (hne : s.subMap.isEmpty = false) :
    publishOne s p =
      (((readMapAndSend s p 1).2 ++ (readMapAndSend s p 2).2 ++
          (readMapAndSend s p (-1)).2).foldl (fun st i => unsubscribe st i) s,
        (readMapAndSend s p 1).1 ++ (readMapAndSend s p 2).1 ++
          (readMapAndSend s p (-1)).1) := by
  rw [publishOne, if_neg (by simp [hne])]

/-- C5.  If during delivery of one published event a subscriber's receiver
returns a non-nil error or panics, that subscriber is absent from the
subscription map after the event (hence before the next event is
processed), while every subscriber of the matched topic bucket — the other
subscribers of the same event — still gets the event delivered.  The model
of `publish` is a total function: the receiver's error or panic is consumed
by `sendMsgRecoverable` and never reaches the publisher. -/
theorem failing_subscriber_evicted_others_served
    (s : State) (p : Path) (hsh : Nat) (b : Bucket) (id : Nat) (mr : Receiver)
    (hnd : (allIds s.subMap).Nodup)
    (hcl : s.closed = false)
    (hlk : lookupBucket s.subMap hsh = some b)
    (hmem : (id, mr) ∈ b)
    (hfail : mr.behave p ≠ .ok)
    (hmatch : hsh = pathHash p 1 ∨ hsh = pathHash p 2 ∨
      hsh = pathHash p (-1)) :
    id ∉ allIds (sendMsg s p).1.subMap ∧
    ∀ e ∈ b, (e.1, p) ∈ (sendMsg s p).2 := by
  have hne : s.subMap.isEmpty = false := lookupBucket_ne_nil _ _ _ hlk
  have hevid : id ∈ (sendMsgs b p).2 := sendMsgs_evict b p id mr hmem hfail
  rw [sendMsg, if_neg (by simp [hcl]), publishOne_eq s p hne]
  have hlog : ∀ e ∈ b, (e.1, p) ∈ (sendMsgs b p).1 := by
    intro e he
    rw [sendMsgs_log]
    exact List.mem_map.2 ⟨e, he, rfl⟩
  rcases hmatch with hm | hm | hm
  all_goals rw [hm] at hlk
  · rw [readMapAndSend_of_lookup s p 1 b hlk]
    refine ⟨foldl_unsubscribe_removes _ s id hnd ?_, ?_⟩
    · simp only [List.mem_append]
      exact Or.inl (Or.inl (Or.inl hevid))
    · intro e he
      simp only [List.mem_append]
      exact Or.inl (Or.inl (Or.inl (hlog e he)))
  · rw [readMapAndSend_of_lookup s p 2 b hlk]
    refine ⟨foldl_unsubscribe_removes _ s id hnd ?_, ?_⟩
    · simp only [List.mem_append]
      exact Or.inl (Or.inr (Or.inl hevid))
    · intro e he
      simp only [List.mem_append]
      exact Or.inl (Or.inr (Or.inl (hlog e he)))
  · rw [readMapAndSend_of_lookup s p (-1) b hlk]
    refine ⟨foldl_unsubscribe_removes _ s id hnd ?_, ?_⟩
    · simp only [List.mem_append]
      exact Or.inr (Or.inl hevid)
    · intro e he
      simp only [List.mem_append]
      exact Or.inr (Or.inl (hlog e he))

/-- Witness for `failing_subscriber_evicted_others_served`: a panicking
subscriber (id 1) and a well-behaved subscriber (id 2), both on `system`;
after publishing `system/smtp/host`, id 1 is gone from the map and both
got the event. -/
theorem failing_subscriber_evicted_witness :
    1 ∉ allIds (sendMsg stateMixed pubHost).1.subMap ∧
    ∀ e ∈ [(1, panicReceiver), (2, okReceiver)],
      (e.1, pubHost) ∈ (sendMsg stateMixed pubHost).2 :=
  failing_subscriber_evicted_others_served stateMixed pubHost
    (pathHash pubHost 1) [(1, panicReceiver), (2, okReceiver)] 1 panicReceiver
    (by decide) rfl rfl (by simp) (by decide) (Or.inl rfl)

theorem isDigit_ofNat (d : Nat) (hd : d < 10) :
    isDigit (Char.ofNat (48 + d)) = true := by
  interval_cases d <;> decide

theorem toNat_ofNat_digit (d : Nat) (hd : d < 10) :
    (Char.ofNat (48 + d)).toNat = 48 + d := by
  interval_cases d <;> decide

theorem isDigit_ne_sep (c : Char) (h : isDigit c = true) : c ≠ sep := by
  intro he
  subst he
  exact absurd h (by decide)

theorem isDigit_ne_minus (c : Char) (h : isDigit c = true) : c ≠ '-' := by
  intro he
  subst he
  exact absurd h (by decide)

theorem isDigit_ne_plus (c : Char) (h : isDigit c = true) : c ≠ '+' := by
  intro he
  subst he
  exact absurd h (by decide)

theorem natToCharsCore_digits (fuel : Nat) :
    ∀ (n : Nat) (acc : List Char), n < fuel →
      (∀ c ∈ acc, isDigit c = true) →
      ∀ c ∈ natToCharsCore fuel n acc, isDigit c = true := by
  induction fuel with
  | zero => intro n acc hf; omega
  | succ fuel ih =>
    intro n acc hf hacc c hc
    rw [natToCharsCore] at hc
    by_cases hn : n < 10
    · rw [if_pos hn] at hc
      rcases List.mem_cons.1 hc with rfl | hc2
      · exact isDigit_ofNat n hn
      · exact hacc c hc2
    · rw [if_neg hn] at hc
      refine ih (n / 10) _ (by omega) ?_ c hc
      intro c2 hc2
      rcases List.mem_cons.1 hc2 with rfl | hc3
      · exact isDigit_ofNat (n % 10) (Nat.mod_lt n (by omega))
      · exact hacc c2 hc3

theorem natToCharsCore_ne_nil (fuel : Nat) :
    ∀ (n : Nat) (acc : List Char), n < fuel →
      natToCharsCore fuel n acc ≠ [] := by
  induction fuel with
  | zero => intro n acc hf; omega
  | succ fuel ih =>
    intro n acc hf
    rw [natToCharsCore]
    by_cases hn : n < 10
    · rw [if_pos hn]; simp
    · rw [if_neg hn]
      exact ih (n / 10) _ (by omega)

theorem foldl_natVal (cs : List Char) (d : Nat) :
    cs.foldl (fun a c => a * 10 + (c.toNat - 48)) d =
      d * 10 ^ cs.length + natVal cs := by
  induction cs generalizing d with
  | nil => simp [natVal]
  | cons c cs ih =>
    have hv : natVal (c :: cs) = (c.toNat - 48) * 10 ^ cs.length + natVal cs := by
      rw [natVal, List.foldl_cons]
      rw [show (0 : Nat) * 10 + (c.toNat - 48) = c.toNat - 48 from by omega]
      exact ih (c.toNat - 48)
    rw [List.foldl_cons, ih (d * 10 + (c.toNat - 48)), hv, List.length_cons,
      pow_succ]
    ring

theorem natVal_natToCharsCore (fuel : Nat) :
    ∀ (n : Nat) (acc : List Char), n < fuel →
      natVal (natToCharsCore fuel n acc) = n * 10 ^ acc.length + natVal acc := by
  induction fuel with
  | zero => intro n acc hf; omega
  | succ fuel ih =>
    intro n acc hf
    rw [natToCharsCore]
    by_cases hn : n < 10
    · rw [if_pos hn]
      rw [natVal, List.foldl_cons, toNat_ofNat_digit n hn]
      rw [show (0 : Nat) * 10 + (48 + n - 48) = n from by omega]
      exact foldl_natVal acc n
    · rw [if_neg hn]
      rw [ih (n / 10) _ (by omega)]
      have hmod : natVal (Char.ofNat (48 + n % 10) :: acc) =
          (n % 10) * 10 ^ acc.length + natVal acc := by
        rw [natVal, List.foldl_cons, toNat_ofNat_digit (n % 10)
          (Nat.mod_lt n (by omega))]
        rw [show (0 : Nat) * 10 + (48 + n % 10 - 48) = n % 10 from by omega]
        exact foldl_natVal acc (n % 10)
      rw [hmod, List.length_cons, pow_succ]
      have := Nat.div_add_mod n 10
      nlinarith [pow_pos (show 0 < 10 by omega) acc.length]

theorem natVal_natToChars (n : Nat) : natVal (natToChars n) = n := by
  rw [natToChars, natVal_natToCharsCore (n + 1) n [] (by omega)]
  simp [natVal]

theorem natToChars_digits (n : Nat) :
    ∀ c ∈ natToChars n, isDigit c = true := by
  rw [natToChars]
  exact natToCharsCore_digits (n + 1) n [] (by omega) (by simp)

theorem natToChars_ne_nil (n : Nat) : natToChars n ≠ [] :=
  natToCharsCore_ne_nil (n + 1) n [] (by omega)

theorem parseIntGo_natToChars (n : Nat) (hb : (n : Int) < 2 ^ 63) :
    parseIntGo (natToChars n) = ((n : Int), none) := by
  obtain ⟨c, rest, hc⟩ := List.exists_cons_of_ne_nil (natToChars_ne_nil n)
  have hdig : ∀ x ∈ natToChars n, isDigit x = true := natToChars_digits n
  have hcd : isDigit c = true := hdig c (by rw [hc]; simp)
  rw [hc, parseIntGo, if_neg (isDigit_ne_minus c hcd),
    if_neg (isDigit_ne_plus c hcd)]
  have hall : (c :: rest).all isDigit = true := by
    rw [List.all_eq_true]
    intro x hx
    exact hdig x (by rw [hc]; exact hx)
  have hval : natVal (c :: rest) = n := by rw [← hc, natVal_natToChars]
  rw [if_pos ⟨hall, by rw [hval]; exact hb⟩, hval]

theorem indexOfSep_append (a b : Route) (ha : ∀ c ∈ a, c ≠ sep) :
    indexOfSep (a ++ sep :: b) = some a.length := by
  induction a with
  | nil => simp [indexOfSep]
  | cons c rest ih =>
    rw [List.cons_append, indexOfSep,
      if_neg (ha c (List.mem_cons_self c rest))]
    rw [ih (fun x hx => ha x (List.mem_cons_of_mem c hx))]
    rfl

theorem drop_append_cons (a b : Route) (c : Char) :
    (a ++ c :: b).drop (a.length + 1) = b := by
  induction a with
  | nil => simp
  | cons x rest ih => simp [ih]

theorem countSep_append (a b : Route) :
    countSep (a ++ b) = countSep a + countSep b := by
  simp [countSep, List.count_append]

theorem countSep_digits (cs : List Char) (h : ∀ c ∈ cs, isDigit c = true) :
    countSep cs = 0 := by
  simp only [countSep, List.count_eq_zero]
  intro hmem
  exact isDigit_ne_sep sep (h sep hmem) rfl

theorem validScope_facts (s : Nat)
    (hs : s = Scope.Default ∨ s = Scope.Website ∨ s = Scope.Store) :
    (∀ c ∈ fromScope s, c ≠ sep) ∧ validBytes (fromScope s) = true ∧
      fromBytes (fromScope s) = s ∧ countSep (fromScope s) = 0 := by
  rcases hs with rfl | rfl | rfl <;>
    exact ⟨by decide, by decide, by decide, by decide⟩

theorem validBytes_no_sep (a : Route) (h : validBytes a = true) :
    ∀ c ∈ a, c ≠ sep := by
  have : a = String.toList "default" ∨ a = String.toList "websites" ∨
      a = String.toList "stores" := by
    simp only [validBytes, Bool.or_eq_true, decide_eq_true_eq] at h
    tauto
  rcases this with rfl | rfl | rfl <;> decide

theorem fq_eq (r : Route) (s : Nat) (id : Int) (h : isValid r = .ok ()) :
    fq ⟨r, s, id⟩ = .ok (fromScope s ++ sep ::
      (intToChars (if s = Scope.Default ∧ id > 0 then 0 else id) ++
        sep :: r)) := by
  simp only [fq, pathIsValid, h]
  simp [List.append_assoc]

theorem splitFQ_wellformed (a mid r : Route)
    (hasep : ∀ c ∈ a, c ≠ sep)
    (hmsep : ∀ c ∈ mid, c ≠ sep)
    (hvb : validBytes a = true)
    (hfq : isFQ (a ++ sep :: (mid ++ sep :: r)) = true) :
    splitFQ (a ++ sep :: (mid ++ sep :: r)) =
      (⟨r, fromBytes a, (parseIntGo mid).1⟩, (parseIntGo mid).2) := by
  rw [splitFQ]
  rw [if_neg (by simp [hfq, routeValid])]
  simp only [indexOfSep_append a _ hasep, Option.getD_some, List.take_left]
  rw [if_neg (by simp [hvb])]
  rw [drop_append_cons]
  simp only [indexOfSep_append mid _ hmsep, Option.getD_some, List.take_left]
  rw [drop_append_cons]

/-- C2.  `SplitFQ` inverts `FQ`: for every valid route and valid scope id,
`SplitFQ(FQ(p))` is `p` with the Default-scope id canonicalised to 0; and
`SplitFQ` fails on inputs with fewer than `Levels+1` separators, on an
unknown scope prefix, and on a non-integer id. -/
theorem splitFQ_fq_roundtrip :
    (∀ (r : Route) (s : Nat) (id : Int), isValid r = .ok () →
      scopeIDValid s id →
      ∃ out, fq ⟨r, s, id⟩ = .ok out ∧
        splitFQ out = (canonicalize ⟨r, s, id⟩, none)) ∧
    (∀ input : Route, countSep input < Levels + 1 →
      (splitFQ input).2.isSome = true) ∧
    (∀ a b : Route, (∀ c ∈ a, c ≠ sep) → validBytes a = false →
      (splitFQ (a ++ sep :: b)).2.isSome = true) ∧
    (∀ a mid rest : Route, validBytes a = true → (∀ c ∈ mid, c ≠ sep) →
      (parseIntGo mid).2.isSome = true →
      (splitFQ (a ++ sep :: (mid ++ sep :: rest))).2.isSome = true) := by
  refine ⟨?_, ?_, ?_, ?_⟩
  · intro r s id hr hsid
    obtain ⟨hsc, hid0, hidb⟩ := hsid
    obtain ⟨hns, hvb, hfb, hcs0⟩ := validScope_facts s hsc
    obtain ⟨hcnt, hlen, hnil⟩ := isValid_facts r hr
    have hfq := fq_eq r s id hr
    set pid : Int := if s = Scope.Default ∧ id > 0 then 0 else id with hpid
    have hpid0 : 0 ≤ pid := by rw [hpid]; split <;> omega
    have hpidb : pid < 2 ^ 63 := by rw [hpid]; split <;> omega
    have hitc : intToChars pid = natToChars pid.toNat := by
      rw [intToChars, if_neg (by omega)]
    have hd : ∀ c ∈ intToChars pid, isDigit c = true := by
      rw [hitc]; exact natToChars_digits _
    have hdsep : ∀ c ∈ intToChars pid, c ≠ sep :=
      fun c hc => isDigit_ne_sep c (hd c hc)
    have hparse : parseIntGo (intToChars pid) = (pid, none) := by
      rw [hitc, parseIntGo_natToChars pid.toNat
        (by rw [Int.toNat_of_nonneg hpid0]; exact hpidb)]
      rw [Int.toNat_of_nonneg hpid0]
    have hfqsep : isFQ (fromScope s ++ sep ::
        (intToChars pid ++ sep :: r)) = true := by
      simp only [isFQ, countSep_append, countSep_cons, if_pos rfl,
        countSep_digits _ hd, hcs0, hcnt]
      simp [Levels]
    refine ⟨_, hfq, ?_⟩
    rw [splitFQ_wellformed (fromScope s) (intToChars pid) r hns hdsep hvb
      hfqsep, hparse, hfb]
    rw [canonicalize]
    by_cases hsd : s = Scope.Default
    · have hp0 : pid = 0 := by
        rw [hpid]
        split
        · rfl
        · rename_i hcond
          have : ¬ id > 0 := fun hgt => hcond ⟨hsd, hgt⟩
          omega
      rw [if_pos hsd, hp0]
    · have hpi : pid = id := by
        rw [hpid, if_neg (fun hx => hsd hx.1)]
      rw [if_neg hsd, hpi]
  · intro input hlt
    rw [splitFQ, if_pos]
    · rfl
    · simp only [isFQ, routeValid, Bool.not_true, Bool.or_false,
        Bool.not_eq_true']
      simp only [decide_eq_false_iff_not]
      omega
  · intro a b hasep hvbf
    by_cases hfq : isFQ (a ++ sep :: b) = true
    · rw [splitFQ, if_neg (by simp [hfq, routeValid])]
      simp only [indexOfSep_append a _ hasep, Option.getD_some,
        List.take_left]
      rw [if_pos (by simp [hvbf])]
      rfl
    · rw [splitFQ, if_pos (by simp [Bool.not_eq_true] at hfq ⊢; simp [hfq])]
      rfl
  · intro a mid rest hvb hmsep hperr
    have hasep := validBytes_no_sep a hvb
    by_cases hfq : isFQ (a ++ sep :: (mid ++ sep :: rest)) = true
    · rw [splitFQ_wellformed a mid rest hasep hmsep hvb hfq]
      exact hperr
    · rw [splitFQ, if_pos (by simp [Bool.not_eq_true] at hfq ⊢; simp [hfq])]
      rfl

/-- Witness for `splitFQ_fq_roundtrip`: the route `aa/bb/cc` bound to
`(Store, 5)` and a too-short input. -/
theorem splitFQ_fq_roundtrip_witness :
    (∃ out, fq ⟨String.toList "aa/bb/cc", Scope.Store, 5⟩ = .ok out ∧
      splitFQ out =
        (canonicalize ⟨String.toList "aa/bb/cc", Scope.Store, 5⟩, none)) ∧
    (splitFQ (String.toList "stores/5/a")).2.isSome = true := by
  refine ⟨splitFQ_fq_roundtrip.1 (String.toList "aa/bb/cc") Scope.Store 5
    (by rfl) ⟨by decide, by decide, by decide⟩, ?_⟩
  exact splitFQ_fq_roundtrip.2.1 (String.toList "stores/5/a") (by decide)
